import Mathlib

/-!
Verification of the schema aggregation and code-emission engine of
`graphql-ts-generator` (src/main.go) against its natural-language
specification.

The Go code is shallowly embedded: Go strings become `List Char`
(byte-level operations of the source such as `strings.TrimSuffix`,
`strings.HasPrefix`, slicing `s[1:len(s)-1]` become the corresponding
character-list operations, which agree on the ASCII data the tool
manipulates), Go maps become association lists, and each Go function of
interest becomes a Lean function of the same name.
-/

namespace GqlTsGen

/-- Go strings, embedded as lists of characters. -/
abbrev Str := List Char

/-- Converts a Lean string literal into the embedded string type. -/
def gs (s : String) : Str := s.data

/-- `strings.HasSuffix(s, "!")`: does the reference end with the non-null
marker? -/
def endsBang (s : Str) : Bool := s.getLast? = some '!'

/-- `strings.TrimSuffix(s, "!")` from the Go source: drop one trailing
non-null marker if present. -/
def trimBang (s : Str) : Str := if endsBang s then s.dropLast else s

/-- `strings.HasPrefix(s, "[") && strings.HasSuffix(s, "]")`: is the
reference wrapped in list brackets? -/
def bracketed (s : Str) : Bool := s.head? = some '[' && s.getLast? = some ']'

/-- The slice `s[1 : len(s)-1]` used by the Go source to extract the
interior of a bracketed reference. -/
def interiorOf (s : Str) : Str := s.tail.dropLast

/-- The scalar-mapping `switch` at the bottom of `convertGraphqlTypeToTs`
in the Go source: standard GraphQL scalars map to TypeScript types, any
other name passes through unchanged. -/
def scalarMap (c : Str) : Str :=
  if c = gs "String" then gs "string"
  else if c = gs "Int" then gs "number"
  else if c = gs "Float" then gs "number"
  else if c = gs "Boolean" then gs "boolean"
  else if c = gs "ID" then gs "string"
  else if c = gs "DateTime" then gs "string"
  else if c = gs "JSONObject" then gs "Record<string, unknown>"
  else c

/-- Fuel-indexed body of `convertGraphqlTypeToTs`.  The Go function
recurses on the bracket interior, which is strictly shorter than the
input, so fuel `s.length + 1` always suffices (`convertFuel_congr`);
the fuel-0 branch is never reached with that much fuel. -/
def convertFuel : Nat → Str → Str
  | 0, s => trimBang s
  | f + 1, s =>
    let c := trimBang s
    if bracketed c then gs "Array<" ++ convertFuel f (interiorOf c) ++ gs ">"
    else scalarMap c

/-- `convertGraphqlTypeToTs` from the Go source: strip one trailing
non-null marker; if the rest is bracketed, recurse on the interior and
wrap in `Array<...>`; otherwise map through the scalar table. -/
def convertGraphqlTypeToTs (s : Str) : Str := convertFuel (s.length + 1) s

/-- The per-field nullability decision used at every rendering site in the
Go source: `isOptional := !strings.HasSuffix(fieldTypeStr, "!")`. -/
def isOptionalRef (s : Str) : Bool := !(endsBang s)

lemma trimBang_length_le (s : Str) : (trimBang s).length ≤ s.length := by
  unfold trimBang
  split
  · exact s.length_dropLast ▸ Nat.sub_le _ _
  · exact Nat.le_refl _

lemma interiorOf_length_le (s : Str) : (interiorOf s).length ≤ s.length - 1 := by
  unfold interiorOf
  calc s.tail.dropLast.length ≤ s.tail.length := by
        rw [List.length_dropLast]; exact Nat.sub_le _ _
    _ = s.length - 1 := by rw [List.length_tail]

lemma bracketed_ne_nil {s : Str} (h : bracketed s = true) : s ≠ [] := by
  intro he
  subst he
  simp [bracketed] at h

/-- Fuel irrelevance: any fuel above the input's length yields the same
result, so `convertGraphqlTypeToTs` computes the Go recursion exactly. -/
lemma convertFuel_congr : ∀ (f g : Nat) (s : Str),
    s.length < f → s.length < g → convertFuel f s = convertFuel g s := by
  intro f
  induction f with
  | zero => intro g s hf; exact absurd hf (Nat.not_lt_zero _)
  | succ f ih =>
    intro g s hf hg
    match g with
    | 0 => exact absurd hg (Nat.not_lt_zero _)
    | g + 1 =>
      show convertFuel (f + 1) s = convertFuel (g + 1) s
      unfold convertFuel
      by_cases hb : bracketed (trimBang s) = true
      · simp only [hb, if_true]
        have hne := bracketed_ne_nil hb
        have h1 : (trimBang s).length ≤ s.length := trimBang_length_le s
        have h2 : (interiorOf (trimBang s)).length ≤ (trimBang s).length - 1 :=
          interiorOf_length_le _
        have h3 : 0 < (trimBang s).length := List.length_pos.mpr hne
        have hlt : (interiorOf (trimBang s)).length < f := by omega
        have hlt2 : (interiorOf (trimBang s)).length < g := by omega
        rw [ih g (interiorOf (trimBang s)) hlt hlt2]
      · simp only [hb, Bool.false_eq_true, if_false]

/-- Unfolding equation of `convertGraphqlTypeToTs`, valid for every input
string. -/
lemma convertGraphqlTypeToTs_eq (s : Str) :
    convertGraphqlTypeToTs s =
      if bracketed (trimBang s) then
        gs "Array<" ++ convertGraphqlTypeToTs (interiorOf (trimBang s)) ++ gs ">"
      else scalarMap (trimBang s) := by
  show convertFuel (s.length + 1) s = _
  unfold convertFuel
  by_cases hb : bracketed (trimBang s) = true
  · simp only [hb, if_true]
    have hne := bracketed_ne_nil hb
    have h1 : (trimBang s).length ≤ s.length := trimBang_length_le s
    have h2 : (interiorOf (trimBang s)).length ≤ (trimBang s).length - 1 :=
      interiorOf_length_le _
    have h3 : 0 < (trimBang s).length := List.length_pos.mpr hne
    rw [convertFuel_congr s.length ((interiorOf (trimBang s)).length + 1)
      (interiorOf (trimBang s)) (by omega) (Nat.lt_succ_self _)]
    rfl
  · simp only [hb, Bool.false_eq_true, if_false]

/-- `ast.Definition.Kind` values the registry ever holds: the aggregator
only registers Object and Interface definitions. -/
inductive GKind where
  | object
  | interface
deriving DecidableEq

/-- One field of a GraphQL object/interface definition (or one root
field): a name and the raw type-reference string `field.Type.String()`. -/
structure GField where
  name : Str
  typ : Str
deriving DecidableEq

/-- One GraphQL object or interface definition (`ast.Definition`). -/
structure GDef where
  name : Str
  kind : GKind
  fields : List GField
deriving DecidableEq

/-- The `types` map of the Go source (name → TypeInfo), embedded as an
association list keyed by the type name. -/
abbrev Registry := List (Str × GDef)

/-- Lookup in the `types` map: `typeInfo, found := types[name]`. -/
def lookupType : Registry → Str → Option GDef
  | [], _ => none
  | e :: rest, n => if e.1 = n then some e.2 else lookupType rest n

/-- `isObjectType` from the Go source: is the name a key of `types`? -/
def isObjectType (reg : Registry) (n : Str) : Bool := (lookupType reg n).isSome

/-- `extractCleanType` from the Go source: strip one trailing non-null
marker, then at most one bracket layer together with the interior's own
trailing non-null marker. -/
def extractCleanType (s : Str) : Str :=
  if bracketed (trimBang s) then trimBang (interiorOf (trimBang s))
  else trimBang s

/-- `isObjectOrArrayOfObjects` from the Go source. -/
def isObjectOrArrayOfObjects (reg : Registry) (s : Str) : Bool :=
  isObjectType reg (extractCleanType s)

/-- `determineFieldType` from the Go source: decide the type of a field in
a request-projection interface. -/
def determineFieldType (reg : Registry) (fieldTypeStr : Str) : Str :=
  if bracketed (extractCleanType fieldTypeStr) then
    if isObjectType reg (trimBang (interiorOf (extractCleanType fieldTypeStr))) then
      gs "Array<" ++ trimBang (interiorOf (extractCleanType fieldTypeStr)) ++ gs "Request>"
    else gs "Array<boolean | number>"
  else if isObjectType reg (extractCleanType fieldTypeStr) then
    extractCleanType fieldTypeStr ++ gs "Request"
  else gs "boolean | number"

/-- Insertion into a Go `map[string]bool` set, embedded as a duplicate-free
list: `m[k] = true`. -/
def insertName (n : Str) (d : List Str) : List Str :=
  if n ∈ d then d else n :: d

/-- Fuel-indexed body of `bufferRequestInterface` from the Go source.  The
state is the pair (processedTypes, deferredInterfaces).  Each recursive
call first short-circuits on the visited (`processedTypes`) set, so fuel
`reg.length + 1` always suffices (`bufferFuel_congr`); the fuel-0 branch
is never reached with that much fuel. -/
def bufferFuel : Nat → Registry → Str → List Str × List Str → List Str × List Str
  | 0, _, _, pd => pd
  | f + 1, reg, returnType, pd =>
    let cleanType := extractCleanType returnType
    if cleanType ∈ pd.1 then pd
    else
      match lookupType reg cleanType with
      | some typeInfo =>
          typeInfo.fields.foldl
            (fun pd2 field =>
              if isObjectOrArrayOfObjects reg field.typ then bufferFuel f reg field.typ pd2
              else pd2)
            (cleanType :: pd.1, insertName cleanType pd.2)
      | none => (cleanType :: pd.1, pd.2)

/-- `bufferRequestInterface` from the Go source, run with sufficient
fuel. -/
def bufferRequestInterface (reg : Registry) (returnType : Str)
    (processed deferred : List Str) : List Str × List Str :=
  bufferFuel (reg.length + 1) reg returnType (processed, deferred)

/-- `bufferMissingRequestInterfaces` from the Go source: the final sweep
that marks every registered type not yet pending and expands it with a
fresh visited set. -/
def bufferMissingRequestInterfaces (reg : Registry) (deferred : List Str) : List Str :=
  reg.foldl
    (fun d e =>
      if isObjectOrArrayOfObjects reg e.1 = true ∧ e.1 ∉ d then
        (bufferRequestInterface reg e.1 [] (insertName e.1 d)).2
      else d)
    deferred

/-- Growth relation on (processedTypes, deferredInterfaces) states: both
sets only grow, and the pending set never acquires duplicates. -/
def PDle (a b : List Str × List Str) : Prop :=
  (∀ x ∈ a.1, x ∈ b.1) ∧ (∀ x ∈ a.2, x ∈ b.2) ∧ (a.2.Nodup → b.2.Nodup)

lemma PDle.refl (a : List Str × List Str) : PDle a a :=
  ⟨fun _ h => h, fun _ h => h, id⟩

lemma PDle.trans {a b c : List Str × List Str} (h1 : PDle a b) (h2 : PDle b c) :
    PDle a c :=
  ⟨fun x hx => h2.1 x (h1.1 x hx), fun x hx => h2.2.1 x (h1.2.1 x hx),
   fun hn => h2.2.2 (h1.2.2 hn)⟩

lemma foldl_PDle {α : Type} (step : List Str × List Str → α → List Str × List Str)
    (hstep : ∀ s x, PDle s (step s x)) :
    ∀ (l : List α) (s : List Str × List Str), PDle s (l.foldl step s) := by
  intro l
  induction l with
  | nil => intro s; exact PDle.refl s
  | cons x xs ih =>
    intro s
    exact PDle.trans (hstep s x) (ih (step s x))

lemma insertName_mem_of_mem {n x : Str} {d : List Str} (h : x ∈ d) :
    x ∈ insertName n d := by
  unfold insertName
  split
  · exact h
  · exact List.mem_cons_of_mem _ h

lemma mem_insertName (n : Str) (d : List Str) : n ∈ insertName n d := by
  unfold insertName
  split
  · assumption
  · exact List.mem_cons_self _ _

lemma insertName_nodup {n : Str} {d : List Str} (h : d.Nodup) :
    (insertName n d).Nodup := by
  unfold insertName
  split
  · exact h
  · exact List.nodup_cons.mpr ⟨by assumption, h⟩

/-- State growth along `bufferFuel`: the visited and pending sets only
grow, and the pending set stays duplicate-free. -/
lemma bufferFuel_PDle : ∀ (f : Nat) (reg : Registry) (t : Str)
    (pd : List Str × List Str), PDle pd (bufferFuel f reg t pd) := by
  intro f
  induction f with
  | zero => intro reg t pd; exact PDle.refl pd
  | succ f ih =>
    intro reg t pd
    show PDle pd (bufferFuel (f + 1) reg t pd)
    unfold bufferFuel
    by_cases hmem : extractCleanType t ∈ pd.1
    · simp only [hmem, if_true]
      exact PDle.refl pd
    · simp only [hmem, if_false]
      match hl : lookupType reg (extractCleanType t) with
      | some typeInfo =>
          have hinit : PDle pd (extractCleanType t :: pd.1, insertName (extractCleanType t) pd.2) :=
            ⟨fun x hx => List.mem_cons_of_mem _ hx,
             fun x hx => insertName_mem_of_mem hx,
             fun hn => insertName_nodup hn⟩
          refine PDle.trans hinit ?_
          exact foldl_PDle _
            (fun s x => by
              by_cases hg : isObjectOrArrayOfObjects reg x.typ = true
              · simp only [hg, if_true]; exact ih reg x.typ s
              · simp only [hg, if_false]; exact PDle.refl s) _ _
      | none =>
          exact ⟨fun x hx => List.mem_cons_of_mem _ hx, fun x hx => hx, id⟩

/-- The number of registry entries whose key is not yet visited: the
decreasing measure of the Go recursion. -/
def namesNotIn (reg : Registry) (p : List Str) : Nat :=
  reg.countP (fun e => decide (e.1 ∉ p))

lemma namesNotIn_le_length (reg : Registry) (p : List Str) :
    namesNotIn reg p ≤ reg.length :=
  List.countP_le_length _

lemma namesNotIn_mono {p q : List Str} (reg : Registry)
    (h : ∀ x ∈ p, x ∈ q) : namesNotIn reg q ≤ namesNotIn reg p := by
  unfold namesNotIn
  refine List.countP_mono_left ?_
  intro e _ he
  simp only [decide_eq_true_eq] at he ⊢
  intro hq
  exact he (h _ hq)

lemma lookupType_mem {reg : Registry} {n : Str} {d : GDef}
    (h : lookupType reg n = some d) : (n, d) ∈ reg := by
  induction reg with
  | nil => simp [lookupType] at h
  | cons e rest ih =>
    by_cases he : e.1 = n
    · simp only [lookupType, he, if_true, Option.some.injEq] at h
      subst h
      subst he
      exact List.mem_cons_self _ _
    · simp only [lookupType, he, if_false] at h
      exact List.mem_cons_of_mem _ (ih h)

lemma lookupType_isSome_of_mem {reg : Registry} {n : Str} {d : GDef}
    (h : (n, d) ∈ reg) : (lookupType reg n).isSome = true := by
  induction reg with
  | nil => simp at h
  | cons e rest ih =>
    rcases List.mem_cons.mp h with he | ht
    · simp [lookupType, ← he]
    · by_cases heq : e.1 = n
      · simp [lookupType, heq]
      · simp only [lookupType, heq, if_false]
        exact ih ht

lemma namesNotIn_lt {reg : Registry} {n : Str} {d : GDef} {p : List Str}
    (hmem : (n, d) ∈ reg) (hnp : n ∉ p) :
    namesNotIn reg (n :: p) < namesNotIn reg p := by
  induction reg with
  | nil => simp at hmem
  | cons e rest ih =>
    have hmono : namesNotIn rest (n :: p) ≤ namesNotIn rest p :=
      namesNotIn_mono rest (fun x hx => List.mem_cons_of_mem _ hx)
    rcases List.mem_cons.mp hmem with he | ht
    · have h1 : (decide (e.1 ∉ n :: p)) = false := by
        simp [← he]
      have h2 : (decide (e.1 ∉ p)) = true := by
        simp [← he]
        exact hnp
      unfold namesNotIn
      rw [List.countP_cons, List.countP_cons, h1, h2]
      simpa [namesNotIn] using Nat.lt_succ_of_le hmono
    · have hlt := ih ht
      unfold namesNotIn
      rw [List.countP_cons, List.countP_cons]
      have hble : (if decide (e.1 ∉ n :: p) = true then 1 else 0) ≤
          (if decide (e.1 ∉ p) = true then 1 else 0) := by
        by_cases hep : e.1 ∈ p
        · simp [hep]
        · by_cases hen : e.1 ∈ n :: p
          · simp [hen, hep]
          · simp [hen, hep]
      unfold namesNotIn at hlt
      omega

lemma bufferFields_congr (reg : Registry) (f g : Nat)
    (hIH : ∀ (t : Str) (pd : List Str × List Str),
      namesNotIn reg pd.1 < f → namesNotIn reg pd.1 < g →
      bufferFuel f reg t pd = bufferFuel g reg t pd) :
    ∀ (fields : List GField) (pd : List Str × List Str),
      namesNotIn reg pd.1 < f → namesNotIn reg pd.1 < g →
      fields.foldl
        (fun pd2 field =>
          if isObjectOrArrayOfObjects reg field.typ then bufferFuel f reg field.typ pd2
          else pd2) pd =
      fields.foldl
        (fun pd2 field =>
          if isObjectOrArrayOfObjects reg field.typ then bufferFuel g reg field.typ pd2
          else pd2) pd := by
  intro fields
  induction fields with
  | nil => intro pd _ _; rfl
  | cons field rest ih =>
    intro pd h1 h2
    simp only [List.foldl_cons]
    by_cases hg : isObjectOrArrayOfObjects reg field.typ = true
    · simp only [hg, if_true]
      rw [← hIH field.typ pd h1 h2]
      have hle : namesNotIn reg (bufferFuel f reg field.typ pd).1 ≤ namesNotIn reg pd.1 :=
        namesNotIn_mono reg (bufferFuel_PDle f reg field.typ pd).1
      exact ih _ (Nat.lt_of_le_of_lt hle h1) (Nat.lt_of_le_of_lt hle h2)
    · simp only [hg, if_false]
      exact ih pd h1 h2

/-- Fuel irrelevance for `bufferRequestInterface`: any fuel above the
number of not-yet-visited registered names yields the same result.  This
is the termination argument for the Go recursion: the visited set grows at
every expansion, so the recursion depth is bounded by the registry size. -/
lemma bufferFuel_congr : ∀ (f g : Nat) (reg : Registry) (t : Str)
    (pd : List Str × List Str),
    namesNotIn reg pd.1 < f → namesNotIn reg pd.1 < g →
    bufferFuel f reg t pd = bufferFuel g reg t pd := by
  intro f
  induction f with
  | zero => intro g reg t pd hf; exact absurd hf (Nat.not_lt_zero _)
  | succ f ih =>
    intro g reg t pd hf hg
    match g with
    | 0 => exact absurd hg (Nat.not_lt_zero _)
    | g + 1 =>
      show bufferFuel (f + 1) reg t pd = bufferFuel (g + 1) reg t pd
      unfold bufferFuel
      by_cases hmem : extractCleanType t ∈ pd.1
      · simp only [hmem, if_true]
      · simp only [hmem, if_false]
        match hl : lookupType reg (extractCleanType t) with
        | some typeInfo =>
            have hentry : (extractCleanType t, typeInfo) ∈ reg := lookupType_mem hl
            have hlt : namesNotIn reg (extractCleanType t :: pd.1) < namesNotIn reg pd.1 :=
              namesNotIn_lt hentry hmem
            refine bufferFields_congr reg f g
              (fun t' pd' h1 h2 => ih g reg t' pd' h1 h2)
              typeInfo.fields _ ?_ ?_
            · show namesNotIn reg (extractCleanType t :: pd.1) < f
              omega
            · show namesNotIn reg (extractCleanType t :: pd.1) < g
              omega
        | none => rfl

/-- Running `bufferRequestInterface` with any sufficient fuel gives the
canonical result: the Go recursion terminates. -/
lemma bufferFuel_eq_bufferRequestInterface (f : Nat) (reg : Registry)
    (t : Str) (p d : List Str) (h : reg.length < f) :
    bufferFuel f reg t (p, d) = bufferRequestInterface reg t p d := by
  unfold bufferRequestInterface
  have h1 : namesNotIn reg p < f :=
    Nat.lt_of_le_of_lt (namesNotIn_le_length reg p) h
  have h2 : namesNotIn reg p < reg.length + 1 :=
    Nat.lt_succ_of_le (namesNotIn_le_length reg p)
  exact bufferFuel_congr f (reg.length + 1) reg t (p, d) h1 h2

/-- `compareDefinitions` from the Go source: positional structural
comparison — equal field counts and, at every position, equal field name
and equal raw type-reference string. -/
def compareDefinitions (a b : GDef) : Bool :=
  if a.fields.length ≠ b.fields.length then false
  else (a.fields.zip b.fields).all
    (fun p => decide (p.1.name = p.2.name) && decide (p.1.typ = p.2.typ))

/-- `addTypeOrInterface` from the Go source: on a name collision with
permissive mode off, a structural mismatch raises the conflict error;
otherwise the registry is left unchanged (first-seen definition kept).  A
new name is inserted. -/
def addTypeOrInterface (skipChecks : Bool) (reg : Registry) (d : GDef) :
    Except Str Registry :=
  match lookupType reg d.name with
  | some existing =>
      if !skipChecks && !(compareDefinitions existing d) then
        Except.error (gs "error: type or interface " ++ d.name ++
          gs " has conflicting definitions")
      else Except.ok reg
  | none => Except.ok (reg ++ [(d.name, d)])

/-- Assignment `m[k] = v` into a Go `map[string]...`, embedded as an
association-list update: replace the entry for `k` if present, otherwise
add one. -/
def mapSet {α : Type} : List (Str × α) → Str → α → List (Str × α)
  | [], k, v => [(k, v)]
  | e :: rest, k, v => if e.1 = k then (k, v) :: rest else e :: mapSet rest k v

/-- Lookup `m[k]` in the embedded map. -/
def lookupKey {α : Type} : List (Str × α) → Str → Option α
  | [], _ => none
  | e :: rest, k => if e.1 = k then some e.2 else lookupKey rest k

/-- The Go aggregator's treatment of a Query (or, identically, Mutation)
root field: `queries[field.Name] = field` — an unconditional
insert-or-overwrite with no conflict check and no error path (the
operation is total: its result type has no error case). -/
def addQueryField (m : List (Str × GField)) (field : GField) : List (Str × GField) :=
  mapSet m field.name field

/-- Ingesting a sequence of root-field definitions in document order,
starting from the empty root map. -/
def processRootFields (fs : List GField) : List (Str × GField) :=
  fs.foldl addQueryField []

/-- One field line of a request-projection interface, from the loop body
of `generateRequestInterfaces` in the Go source: the `?` optionality
marker follows the raw reference's non-null marker, and the type comes
from `determineFieldType` with no `Nullable<...>` wrapper. -/
def renderRequestField (reg : Registry) (field : GField) : Str :=
  if isOptionalRef field.typ then
    gs "  " ++ field.name ++ gs "?: " ++ determineFieldType reg field.typ ++ gs ";\n"
  else
    gs "  " ++ field.name ++ gs ": " ++ determineFieldType reg field.typ ++ gs ";\n"

/-- `generateRequestInterfaces` from the Go source: one
`<Type>Request` interface per pending name found in the registry. -/
def generateRequestInterfaces (reg : Registry) (deferredInterfaces : List Str) : Str :=
  deferredInterfaces.foldl
    (fun buffer deferredType =>
      match lookupType reg deferredType with
      | some typeInfo =>
          (typeInfo.fields.foldl (fun b f => b ++ renderRequestField reg f)
            (buffer ++ gs "export interface " ++ deferredType ++ gs "Request \x7b\n")) ++
          gs "\x7d\n\n"
      | none => buffer)
    []

/-- One field line of a data-shape interface, from `generateTypeInterface`
(and identically `generateRootInterfaces`) in the Go source: nullable
fields get `?` and a `Nullable<...>` wrapper. -/
def renderDataField (field : GField) : Str :=
  if isOptionalRef field.typ then
    gs "  " ++ field.name ++ gs "?: Nullable<" ++ convertGraphqlTypeToTs field.typ ++ gs ">;\n"
  else
    gs "  " ++ field.name ++ gs ": " ++ convertGraphqlTypeToTs field.typ ++ gs ";\n"

/-- `generateTypeInterface` from the Go source (Object and Interface kinds
render identically). -/
def generateTypeInterface (ti : Str × GDef) : Str :=
  (match ti.2.kind with
   | GKind.object => gs "export interface " ++ ti.1 ++ gs " \x7b\n"
   | GKind.interface => gs "export interface " ++ ti.1 ++ gs " \x7b\n") ++
  ti.2.fields.foldl (fun b f => b ++ renderDataField f) [] ++ gs "\x7d\n\n"

/-- One enum definition: name and ordered value list. -/
abbrev GEnum := Str × List Str

/-- `generateEnums` from the Go source: mirror-style enum rendering. -/
def generateEnums (enums : List GEnum) : Str :=
  enums.foldl
    (fun b e =>
      (e.2.foldl (fun b2 v => b2 ++ gs "  " ++ v ++ gs " = \x27" ++ v ++ gs "\x27,\n")
        (b ++ gs "export enum " ++ e.1 ++ gs " \x7b\n")) ++ gs "\x7d\n\n")
    []

/-- `writeFileHeader` from the Go source: fixed generated-file banner plus
the `Nullable<T>` alias. -/
def writeFileHeader : Str :=
  gs "/*\n * -------------------------------------------------------\n * THIS FILE WAS AUTOMATICALLY GENERATED (DO NOT MODIFY)\n * -------------------------------------------------------\n */\n\n/* tslint:disable */\n/* eslint-disable */\n\n" ++
  gs "type Nullable<T> = T | null;\n\n"

/-- `generateRootInterfaces` from the Go source: render the Query or
Mutation interface (only when the root-field map is non-empty) and thread
the resolver state through `bufferRequestInterface` for every root
field. -/
def generateRootInterfaces (reg : Registry) (fields : List GField) (rootName : Str)
    (pd : List Str × List Str) : Str × (List Str × List Str) :=
  if fields.isEmpty then ([], pd)
  else
    let r := fields.foldl
      (fun acc field =>
        (acc.1 ++ renderDataField field,
         bufferRequestInterface reg field.typ acc.2.1 acc.2.2))
      (gs "export interface " ++ rootName ++ gs " \x7b\n", pd)
    (r.1 ++ gs "\x7d\n\n", r.2)

/-- `generateTypescriptFile` from the Go source, as the text it writes:
header, enums, data-shape interfaces (marking nested object types along
the way), Query interface, Mutation interface, the completeness sweep,
and finally the request-projection interfaces. -/
def generateTypescriptFile (reg : Registry) (enums : List GEnum)
    (qs ms : List GField) : Str :=
  let pd0 : List Str × List Str := ([], [])
  let tr := reg.foldl
    (fun acc ti =>
      (acc.1 ++ generateTypeInterface ti,
       ti.2.fields.foldl
         (fun pd field =>
           if isObjectOrArrayOfObjects reg field.typ then
             bufferRequestInterface reg field.typ pd.1 pd.2
           else pd)
         acc.2))
    (([] : Str), pd0)
  let qr := generateRootInterfaces reg qs (gs "Query") tr.2
  let mr := generateRootInterfaces reg ms (gs "Mutation") qr.2
  let deferredFinal := bufferMissingRequestInterfaces reg mr.2.2
  writeFileHeader ++ generateEnums enums ++ tr.1 ++ qr.1 ++ mr.1 ++
    generateRequestInterfaces reg deferredFinal

/-- The data-shape interface section on its own. -/
def typesSection (reg : Registry) : Str :=
  reg.foldl (fun b ti => b ++ generateTypeInterface ti) []

/-- A root (Query/Mutation) interface section on its own. -/
def rootSection (rootName : Str) (fields : List GField) : Str :=
  if fields.isEmpty then []
  else
    (fields.foldl (fun b f => b ++ renderDataField f)
      (gs "export interface " ++ rootName ++ gs " \x7b\n")) ++ gs "\x7d\n\n"

/-- The self-referential example type `type Node \x7b parent: Node \x7d`. -/
def nodeDef : GDef := ⟨gs "Node", GKind.object, [⟨gs "parent", gs "Node"⟩]⟩

/-- A registry holding only `Node`. -/
def nodeReg : Registry := [(gs "Node", nodeDef)]

/-- The example type `type User \x7b name: String \x7d`. -/
def userDef : GDef := ⟨gs "User", GKind.object, [⟨gs "name", gs "String"⟩]⟩

/-- A registry holding only `User`. -/
def regU : Registry := [(gs "User", userDef)]

lemma getLast?_append_lit (l : Str) {lit : Str} {c : Char}
    (h : lit.getLast? = some c) : (l ++ lit).getLast? = some c := by
  rw [List.getLast?_append, h]
  rfl

lemma trimBang_of_endsBang_false {l : Str} (h : endsBang l = false) :
    trimBang l = l := by
  unfold trimBang
  rw [h]
  rfl

lemma endsBang_concat_bang (l : Str) : endsBang (l ++ ['!']) = true := by
  unfold endsBang
  rw [List.getLast?_concat]
  rfl

lemma trimBang_concat_bang (l : Str) : trimBang (l ++ ['!']) = l := by
  unfold trimBang
  rw [endsBang_concat_bang]
  simp [List.dropLast_concat]

lemma endsBang_of_getLast? {l : Str} {c : Char} (h : l.getLast? = some c)
    (hc : c ≠ '!') : endsBang l = false := by
  unfold endsBang
  rw [h]
  simpa using hc

lemma bracketed_of {l : Str} (h1 : l.head? = some '[') (h2 : l.getLast? = some ']') :
    bracketed l = true := by
  unfold bracketed
  rw [h1, h2]
  rfl

lemma bracketed_false_of_head {l : Str} (h : l.head? ≠ some '[') :
    bracketed l = false := by
  unfold bracketed
  have : (l.head? = some '[' : Bool) = false := by simpa using h
  rw [this]
  rfl

lemma interiorOf_cons_append (name lit : Str) (h : lit ≠ []) :
    interiorOf (('[' :: name) ++ lit) = name ++ lit.dropLast := by
  unfold interiorOf
  rw [List.cons_append, List.tail_cons, List.dropLast_append_of_ne_nil _ h]

lemma head?_cons_append (c : Char) (l m : Str) : ((c :: l) ++ m).head? = some c := by
  rw [List.cons_append]
  rfl

lemma extractCleanType_plain {name : Str} (h1 : endsBang name = false)
    (h2 : name.head? ≠ some '[') : extractCleanType name = name := by
  unfold extractCleanType
  rw [trimBang_of_endsBang_false h1, bracketed_false_of_head h2]
  rfl

lemma extractCleanType_bang {name : Str} (h2 : name.head? ≠ some '[') :
    extractCleanType (name ++ ['!']) = name := by
  unfold extractCleanType
  rw [trimBang_concat_bang, bracketed_false_of_head h2]
  rfl

lemma extractCleanType_list {name : Str} (h1 : endsBang name = false) :
    extractCleanType (('[' :: name) ++ [']']) = name := by
  unfold extractCleanType
  have hlast : (('[' :: name) ++ [']']).getLast? = some ']' := List.getLast?_concat _
  rw [trimBang_of_endsBang_false (endsBang_of_getLast? hlast (by decide)),
    bracketed_of (head?_cons_append _ _ _) hlast]
  simp only [if_true]
  rw [interiorOf_cons_append _ _ (by simp)]
  simp only [List.dropLast_single, List.append_nil]
  exact trimBang_of_endsBang_false h1

lemma extractCleanType_listBangBang {name : Str} :
    extractCleanType (('[' :: name) ++ ['!', ']', '!']) = name := by
  unfold extractCleanType
  have hlast : (('[' :: name) ++ ['!', ']', '!']).getLast? = some '!' :=
    getLast?_append_lit _ (by rfl)
  have htb : trimBang (('[' :: name) ++ ['!', ']', '!']) = ('[' :: name) ++ ['!', ']'] := by
    unfold trimBang endsBang
    rw [hlast]
    simp only [decide_eq_true_eq, reduceIte, List.cons_append]
    rw [List.dropLast_cons_of_ne_nil (by simp), List.dropLast_append_of_ne_nil _ (by simp)]
    rfl
  rw [htb]
  have hlast2 : (('[' :: name) ++ ['!', ']']).getLast? = some ']' :=
    getLast?_append_lit _ (by rfl)
  rw [bracketed_of (head?_cons_append _ _ _) hlast2]
  simp only [if_true]
  rw [interiorOf_cons_append _ _ (by simp)]
  show trimBang (name ++ ['!']) = name
  exact trimBang_concat_bang name

lemma extractCleanType_listList {name : Str} :
    extractCleanType (('[' :: '[' :: name) ++ [']', ']']) = ('[' :: name) ++ [']'] := by
  unfold extractCleanType
  have hlast : (('[' :: '[' :: name) ++ [']', ']']).getLast? = some ']' :=
    getLast?_append_lit _ (by rfl)
  rw [trimBang_of_endsBang_false (endsBang_of_getLast? hlast (by decide)),
    bracketed_of (head?_cons_append _ _ _) hlast]
  simp only [if_true]
  rw [show ('[' :: '[' :: name : Str) = '[' :: ('[' :: name) from rfl,
    interiorOf_cons_append _ _ (by simp)]
  have hlast2 : (('[' :: name) ++ ([']', ']'] : Str).dropLast).getLast? = some ']' := by
    rw [show ([']', ']'] : Str).dropLast = [']'] from rfl]
    exact List.getLast?_concat _
  rw [trimBang_of_endsBang_false (endsBang_of_getLast? hlast2 (by decide))]
  rfl

lemma convert_congr_trimBang {a b : Str} (h : trimBang a = trimBang b) :
    convertGraphqlTypeToTs a = convertGraphqlTypeToTs b := by
  rw [convertGraphqlTypeToTs_eq a, convertGraphqlTypeToTs_eq b, h]

/-- C9: translating `[[String!]]!` yields the non-nullable expression
`Array<Array<string>>` — the trailing non-null marker makes the reference
non-nullable, both bracket levels become `Array<...>` wrappers, and the
innermost `String!` maps to `string`. -/
theorem convert_nested_string_list :
    convertGraphqlTypeToTs (gs "[[String!]]!") = gs "Array<Array<string>>" ∧
    isOptionalRef (gs "[[String!]]!") = false := by
  constructor
  · decide
  · decide

/-- C6: the type-reference translator is total — its defining recursion is
well-defined on every input string, including malformed ones such as
unbalanced brackets (`convertGraphqlTypeToTs` is a total Lean function and
the Go unfolding equation below holds universally) — and a reference is
treated as non-nullable exactly when the whole string ends with the
non-null marker. -/
theorem convertGraphqlTypeToTs_total_and_nullability :
    (∀ s : Str,
      convertGraphqlTypeToTs s =
        (if bracketed (trimBang s) then
          gs "Array<" ++ convertGraphqlTypeToTs (interiorOf (trimBang s)) ++ gs ">"
        else scalarMap (trimBang s)) ∧
      (isOptionalRef s = false ↔ endsBang s = true)) ∧
    convertGraphqlTypeToTs (gs "[[[Foo") = gs "[[[Foo" ∧
    convertGraphqlTypeToTs (gs "]mangled[") = gs "]mangled[" := by
  refine ⟨fun s => ⟨convertGraphqlTypeToTs_eq s, ?_⟩, by decide, by decide⟩
  unfold isOptionalRef
  cases endsBang s <;> simp

/-- C10 counterexample: for the inner type text `T = String!` the claim
fails — translating `[T!]` (that is, `[String!!]`) gives `Array<String!>`
while translating `[T]` (that is, `[String!]`) gives `Array<string>`, so
the two expressions differ. -/
theorem convert_elementBang_counterexample :
    convertGraphqlTypeToTs (('[' :: gs "String!") ++ gs "!]") = gs "Array<String!>" ∧
    convertGraphqlTypeToTs (('[' :: gs "String!") ++ gs "]") = gs "Array<string>" ∧
    convertGraphqlTypeToTs (('[' :: gs "String!") ++ gs "!]") ≠
      convertGraphqlTypeToTs (('[' :: gs "String!") ++ gs "]") := by
  refine ⟨by decide, by decide, by decide⟩

/-- C10 (amended): for every inner type text `T` that does not itself end
with the non-null marker, translating `[T!]` and `[T]` produces the same
expression and the same top-level nullability — the element-level marker
is stripped inside the `Array<...>` wrapper. -/
theorem convert_elementBang_unobservable :
    ∀ T : Str, endsBang T = false →
      convertGraphqlTypeToTs (('[' :: T) ++ gs "!]") =
        convertGraphqlTypeToTs (('[' :: T) ++ gs "]") ∧
      isOptionalRef (('[' :: T) ++ gs "!]") = isOptionalRef (('[' :: T) ++ gs "]") := by
  intro T hT
  have e1 : (gs "!]" : Str) = ['!', ']'] := rfl
  have e2 : (gs "]" : Str) = [']'] := rfl
  rw [e1, e2]
  have hlast1 : (('[' :: T) ++ ['!', ']']).getLast? = some ']' :=
    getLast?_append_lit _ (by rfl)
  have hlast2 : (('[' :: T) ++ [']']).getLast? = some ']' := List.getLast?_concat _
  have htb1 := trimBang_of_endsBang_false (endsBang_of_getLast? hlast1 (by decide))
  have htb2 := trimBang_of_endsBang_false (endsBang_of_getLast? hlast2 (by decide))
  constructor
  · rw [convertGraphqlTypeToTs_eq (('[' :: T) ++ ['!', ']']),
      convertGraphqlTypeToTs_eq (('[' :: T) ++ [']'])]
    rw [htb1, htb2, bracketed_of (head?_cons_append _ _ _) hlast1,
      bracketed_of (head?_cons_append _ _ _) hlast2]
    simp only [if_true]
    rw [interiorOf_cons_append _ _ (by simp), interiorOf_cons_append _ _ (by simp)]
    simp only [List.dropLast_single, List.append_nil,
      show (['!', ']'] : Str).dropLast = ['!'] from rfl]
    rw [convert_congr_trimBang
      (show trimBang (T ++ ['!']) = trimBang T by
        rw [trimBang_concat_bang, trimBang_of_endsBang_false hT])]
  · unfold isOptionalRef
    rw [endsBang_of_getLast? hlast1 (by decide), endsBang_of_getLast? hlast2 (by decide)]

/-- C10 witness: the amended statement at the concrete inner text
`String`. -/
theorem convert_elementBang_unobservable_witness :
    convertGraphqlTypeToTs (('[' :: gs "String") ++ gs "!]") =
      convertGraphqlTypeToTs (('[' :: gs "String") ++ gs "]") :=
  (convert_elementBang_unobservable (gs "String") (by decide)).1

lemma colon_ne_question (nm a : Str) :
    gs "  " ++ nm ++ gs ": " ++ a ++ gs ";\n" ≠
    gs "  " ++ nm ++ gs "?: " ++ a ++ gs ";\n" := by
  intro h
  have hl := congrArg List.length h
  simp only [List.length_append, show (gs "  ").length = 2 from rfl,
    show (gs ": ").length = 2 from rfl, show (gs "?: ").length = 3 from rfl,
    show (gs ";\n").length = 2 from rfl] at hl
  omega

/-- C1 counterexample: the request projection of
`type User \x7b name: String \x7d` renders its field as
`name?: boolean | number;` — with the `?` optionality marker — not as
`name: boolean | number;` as the claim demands for every field. -/
theorem generateRequestInterfaces_optional_counterexample :
    generateRequestInterfaces regU [gs "User"] =
      gs "export interface UserRequest \x7b\n  name?: boolean | number;\n\x7d\n\n" ∧
    generateRequestInterfaces regU [gs "User"] ≠
      gs "export interface UserRequest \x7b\n  name: boolean | number;\n\x7d\n\n" := by
  exact ⟨by decide, by decide⟩

/-- C1 (amended): a request-projection field line never carries a
`Nullable<...>` wrapper, but it does carry the `?` optionality marker
exactly when the field's raw type reference does not end with the
non-null marker: the line is `name: T;` iff the reference ends with `!`,
and `name?: T;` iff it does not, with `T` from `determineFieldType`. -/
theorem renderRequestField_optionality :
    ∀ (reg : Registry) (field : GField),
      (renderRequestField reg field =
        gs "  " ++ field.name ++ gs ": " ++ determineFieldType reg field.typ ++ gs ";\n" ↔
        endsBang field.typ = true) ∧
      (renderRequestField reg field =
        gs "  " ++ field.name ++ gs "?: " ++ determineFieldType reg field.typ ++ gs ";\n" ↔
        endsBang field.typ = false) := by
  intro reg field
  cases h : endsBang field.typ
  · have hr : renderRequestField reg field =
        gs "  " ++ field.name ++ gs "?: " ++ determineFieldType reg field.typ ++ gs ";\n" := by
      unfold renderRequestField isOptionalRef
      rw [h]
      rfl
    refine ⟨⟨?_, ?_⟩, ⟨fun _ => rfl, fun _ => hr⟩⟩
    · intro heq
      rw [hr] at heq
      exact absurd heq.symm (colon_ne_question _ _)
    · intro hc
      exact absurd hc (by decide)
  · have hr : renderRequestField reg field =
        gs "  " ++ field.name ++ gs ": " ++ determineFieldType reg field.typ ++ gs ";\n" := by
      unfold renderRequestField isOptionalRef
      rw [h]
      rfl
    refine ⟨⟨fun _ => rfl, fun _ => hr⟩, ⟨?_, ?_⟩⟩
    · intro heq
      rw [hr] at heq
      exact absurd heq (colon_ne_question _ _)
    · intro hc
      exact absurd hc (by decide)

/-- C2 counterexample: with `User` registered, the field reference
`[User]` — a list whose fully-unwrapped base type is the registered
`User` — projects to `UserRequest`, not to `Array<UserRequest>` as the
claim demands for lists; and at nesting depth 3 (`[[[User]]]`) the base
type is not recovered at all and the projection falls back to
`Array<boolean | number>`. -/
theorem determineFieldType_counterexample :
    determineFieldType regU (gs "[User]") = gs "UserRequest" ∧
    gs "UserRequest" ≠ gs "Array<UserRequest>" ∧
    determineFieldType regU (gs "[[[User]]]") = gs "Array<boolean | number>" := by
  exact ⟨by decide, by decide, by decide⟩

lemma determineFieldType_of_clean_plain {reg : Registry} {s name : Str}
    (hc : extractCleanType s = name) (h1 : name.head? ≠ some '[') :
    determineFieldType reg s =
      if isObjectType reg name then name ++ gs "Request"
      else gs "boolean | number" := by
  unfold determineFieldType
  rw [hc, bracketed_false_of_head h1]
  simp only [Bool.false_eq_true, if_false]

lemma determineFieldType_of_clean_list {reg : Registry} {s name : Str}
    (hc : extractCleanType s = ('[' :: name) ++ [']'])
    (h1 : endsBang name = false) :
    determineFieldType reg s =
      if isObjectType reg name then gs "Array<" ++ name ++ gs "Request>"
      else gs "Array<boolean | number>" := by
  unfold determineFieldType
  rw [hc]
  have hlast : (('[' :: name) ++ [']']).getLast? = some ']' := List.getLast?_concat _
  rw [bracketed_of (head?_cons_append _ _ _) hlast]
  simp only [if_true]
  rw [interiorOf_cons_append _ _ (by simp)]
  simp only [List.dropLast_single, List.append_nil]
  rw [trimBang_of_endsBang_false h1]

/-- C2 (amended): the projection type strips one trailing `!` and at most
one bracket layer (with the interior's trailing `!`).  A bare name, a
non-null name, a single-level list `[X]`, and `[X!]!` all project to
`XRequest` when `X` is registered — the single-level list is NOT wrapped
in `Array<...>` — while a depth-2 list `[[X]]` projects to
`Array<XRequest>`; unregistered bases give `boolean | number`
(`Array<boolean | number>` only at depth 2). -/
theorem determineFieldType_shapes :
    ∀ (reg : Registry) (name m : Str),
      endsBang name = false → name.head? ≠ some '[' → isObjectType reg name = true →
      endsBang m = false → m.head? ≠ some '[' → isObjectType reg m = false →
      determineFieldType reg name = name ++ gs "Request" ∧
      determineFieldType reg (name ++ gs "!") = name ++ gs "Request" ∧
      determineFieldType reg (('[' :: name) ++ gs "]") = name ++ gs "Request" ∧
      determineFieldType reg (('[' :: name) ++ gs "!]!") = name ++ gs "Request" ∧
      determineFieldType reg (('[' :: '[' :: name) ++ gs "]]") =
        gs "Array<" ++ name ++ gs "Request>" ∧
      determineFieldType reg m = gs "boolean | number" ∧
      determineFieldType reg (('[' :: m) ++ gs "]") = gs "boolean | number" ∧
      determineFieldType reg (('[' :: '[' :: m) ++ gs "]]") =
        gs "Array<boolean | number>" := by
  intro reg name m hn1 hn2 hn3 hm1 hm2 hm3
  have e1 : (gs "!" : Str) = ['!'] := rfl
  have e2 : (gs "]" : Str) = [']'] := rfl
  have e3 : (gs "!]!" : Str) = ['!', ']', '!'] := rfl
  have e4 : (gs "]]" : Str) = [']', ']'] := rfl
  rw [e1, e2, e3, e4]
  refine ⟨?_, ?_, ?_, ?_, ?_, ?_, ?_, ?_⟩
  · rw [determineFieldType_of_clean_plain (extractCleanType_plain hn1 hn2) hn2, hn3]
    simp only [if_true]
  · rw [determineFieldType_of_clean_plain (extractCleanType_bang hn2) hn2, hn3]
    simp only [if_true]
  · rw [determineFieldType_of_clean_plain (extractCleanType_list hn1) hn2, hn3]
    simp only [if_true]
  · rw [determineFieldType_of_clean_plain extractCleanType_listBangBang hn2, hn3]
    simp only [if_true]
  · rw [determineFieldType_of_clean_list extractCleanType_listList hn1, hn3]
    simp only [if_true]
  · rw [determineFieldType_of_clean_plain (extractCleanType_plain hm1 hm2) hm2, hm3]
    simp only [Bool.false_eq_true, if_false]
  · rw [determineFieldType_of_clean_plain (extractCleanType_list hm1) hm2, hm3]
    simp only [Bool.false_eq_true, if_false]
  · rw [determineFieldType_of_clean_list extractCleanType_listList hm1, hm3]
    simp only [Bool.false_eq_true, if_false]

/-- C2 witness: the amended statement at the registry holding `User`, with
registered base `User` and unregistered base `Zz`. -/
theorem determineFieldType_shapes_witness :
    determineFieldType regU (('[' :: gs "User") ++ gs "]") = gs "User" ++ gs "Request" :=
  (determineFieldType_shapes regU (gs "User") (gs "Zz") (by decide) (by decide)
    (by decide) (by decide) (by decide) (by decide)).2.2.1

lemma zipAll_iff : ∀ (as bs : List GField), as.length = bs.length →
    (((as.zip bs).all
        (fun p => decide (p.1.name = p.2.name) && decide (p.1.typ = p.2.typ))) = true ↔
      ∀ (i : Nat) (f g : GField), as[i]? = some f → bs[i]? = some g →
        f.name = g.name ∧ f.typ = g.typ) := by
  intro as
  induction as with
  | nil =>
    intro bs hlen
    cases bs with
    | nil =>
      constructor
      · intro _ i f g hf _
        simp at hf
      · intro _
        rfl
    | cons g gsb => simp at hlen
  | cons f fs ih =>
    intro bs hlen
    cases bs with
    | nil => simp at hlen
    | cons g gsb =>
      have hlen2 : fs.length = gsb.length := by simpa using hlen
      constructor
      · intro hall i f2 g2 hf hg
        rw [List.zip_cons_cons, List.all_cons, Bool.and_eq_true] at hall
        match i with
        | 0 =>
          simp only [List.getElem?_cons_zero, Option.some.injEq] at hf hg
          subst hf
          subst hg
          have h1 := hall.1
          rw [Bool.and_eq_true, decide_eq_true_eq, decide_eq_true_eq] at h1
          exact h1
        | i + 1 =>
          simp only [List.getElem?_cons_succ] at hf hg
          exact ((ih gsb hlen2).mp hall.2) i f2 g2 hf hg
      · intro hall
        rw [List.zip_cons_cons, List.all_cons, Bool.and_eq_true]
        constructor
        · rw [Bool.and_eq_true, decide_eq_true_eq, decide_eq_true_eq]
          exact hall 0 f g (by simp) (by simp)
        · exact (ih gsb hlen2).mpr (fun i f2 g2 hf hg =>
            hall (i + 1) f2 g2 (by simpa using hf) (by simpa using hg))

/-- Positional characterization of the Go structural comparison. -/
lemma compareDefinitions_eq_true_iff (a b : GDef) :
    compareDefinitions a b = true ↔
      (a.fields.length = b.fields.length ∧
       ∀ (i : Nat) (f g : GField), a.fields[i]? = some f → b.fields[i]? = some g →
         f.name = g.name ∧ f.typ = g.typ) := by
  unfold compareDefinitions
  by_cases hlen : a.fields.length = b.fields.length
  · rw [if_neg (fun hne => hne hlen), zipAll_iff _ _ hlen]
    constructor
    · intro h
      exact ⟨hlen, h⟩
    · intro h
      exact h.2
  · rw [if_pos hlen]
    constructor
    · intro hfalse
      exact absurd hfalse (by decide)
    · intro h
      exact absurd h.1 hlen

/-- C3: with permissive (skipChecks) mode off, re-adding an existing type
name raises the definition-conflict error iff the positional comparison
finds a structural difference (different field counts, or a position
where the field name or the raw type string differs); positionally
identical definitions pass without error.  With permissive mode on, no
conflict is ever raised and the first-seen definition is kept. -/
theorem addTypeOrInterface_conflict_iff :
    (∀ (reg : Registry) (d : GDef), ∃ r, addTypeOrInterface true reg d = Except.ok r) ∧
    (∀ (reg : Registry) (d e : GDef), lookupType reg d.name = some e →
      addTypeOrInterface true reg d = Except.ok reg ∧
      ((∃ msg, addTypeOrInterface false reg d = Except.error msg) ↔
        (e.fields.length ≠ d.fields.length ∨
         ∃ (i : Nat) (f g : GField), e.fields[i]? = some f ∧ d.fields[i]? = some g ∧
           (f.name ≠ g.name ∨ f.typ ≠ g.typ)))) := by
  constructor
  · intro reg d
    unfold addTypeOrInterface
    cases hl : lookupType reg d.name with
    | some existing => exact ⟨reg, rfl⟩
    | none => exact ⟨_, rfl⟩
  · intro reg d e hl
    constructor
    · unfold addTypeOrInterface
      rw [hl]
      rfl
    · by_cases hc : compareDefinitions e d = true
      · have hok : addTypeOrInterface false reg d = Except.ok reg := by
          unfold addTypeOrInterface
          rw [hl]
          dsimp only
          rw [hc]
          rfl
        obtain ⟨hlen, hpt⟩ := (compareDefinitions_eq_true_iff e d).mp hc
        constructor
        · rintro ⟨msg, hmsg⟩
          rw [hok] at hmsg
          exact absurd hmsg (by simp)
        · rintro (hne | ⟨i, f, g, hf, hg, hfg⟩)
          · exact absurd hlen hne
          · rcases hfg with h1 | h1
            · exact absurd (hpt i f g hf hg).1 h1
            · exact absurd (hpt i f g hf hg).2 h1
      · have herr : addTypeOrInterface false reg d =
            Except.error (gs "error: type or interface " ++ d.name ++
              gs " has conflicting definitions") := by
          unfold addTypeOrInterface
          rw [hl]
          dsimp only
          rw [(Bool.eq_false_iff.mpr hc : compareDefinitions e d = false)]
          rfl
        constructor
        · intro _
          by_cases hlen : e.fields.length = d.fields.length
          · right
            have hnot : ¬ (∀ (i : Nat) (f g : GField), e.fields[i]? = some f → d.fields[i]? = some g →
                f.name = g.name ∧ f.typ = g.typ) := by
              intro hpt
              exact hc ((compareDefinitions_eq_true_iff e d).mpr ⟨hlen, hpt⟩)
            push_neg at hnot
            obtain ⟨i, f, g, hf, hg, hfg⟩ := hnot
            refine ⟨i, f, g, hf, hg, ?_⟩
            by_cases h1 : f.name = g.name
            · right
              exact hfg h1
            · left
              exact h1
          · left
            exact hlen
        · intro _
          exact ⟨_, herr⟩

/-- C3 witness: `type Foo \x7b a: String \x7d` versus
`type Foo \x7b a: Int \x7d` — permissive mode accepts silently keeping
the first definition, strict mode raises the conflict error. -/
theorem addTypeOrInterface_conflict_iff_witness :
    addTypeOrInterface true [(gs "Foo", ⟨gs "Foo", GKind.object, [⟨gs "a", gs "String"⟩]⟩)]
        ⟨gs "Foo", GKind.object, [⟨gs "a", gs "Int"⟩]⟩ =
      Except.ok [(gs "Foo", ⟨gs "Foo", GKind.object, [⟨gs "a", gs "String"⟩]⟩)] ∧
    (∃ msg, addTypeOrInterface false
        [(gs "Foo", ⟨gs "Foo", GKind.object, [⟨gs "a", gs "String"⟩]⟩)]
        ⟨gs "Foo", GKind.object, [⟨gs "a", gs "Int"⟩]⟩ = Except.error msg) := by
  have h := addTypeOrInterface_conflict_iff.2
    [(gs "Foo", ⟨gs "Foo", GKind.object, [⟨gs "a", gs "String"⟩]⟩)]
    ⟨gs "Foo", GKind.object, [⟨gs "a", gs "Int"⟩]⟩
    ⟨gs "Foo", GKind.object, [⟨gs "a", gs "String"⟩]⟩ (by decide)
  exact ⟨h.1, h.2.mpr (Or.inr ⟨0, ⟨gs "a", gs "String"⟩, ⟨gs "a", gs "Int"⟩,
    by decide, by decide, Or.inr (by decide)⟩)⟩

/-- C4: the request-shape expansion terminates on every registered type
graph — any fuel above the registry size gives the same (canonical)
result — the pending set is expanded without duplicates (each type name at
most once, guarded by the visited set), and the self-referential schema
`type Node \x7b parent: Node \x7d` produces exactly one `NodeRequest`
pending entry. -/
theorem bufferRequestInterface_terminates :
    (∀ (f : Nat) (reg : Registry) (t : Str) (p d : List Str),
      reg.length < f → bufferFuel f reg t (p, d) = bufferRequestInterface reg t p d) ∧
    (∀ (reg : Registry) (t : Str) (p d : List Str),
      d.Nodup → ((bufferRequestInterface reg t p d).2).Nodup) ∧
    bufferRequestInterface nodeReg (gs "Node") [] [] = ([gs "Node"], [gs "Node"]) ∧
    ((bufferRequestInterface nodeReg (gs "Node") [] []).2).count (gs "Node") = 1 := by
  refine ⟨?_, ?_, by decide, by decide⟩
  · intro f reg t p d h
    exact bufferFuel_eq_bufferRequestInterface f reg t p d h
  · intro reg t p d hd
    exact (bufferFuel_PDle (reg.length + 1) reg t (p, d)).2.2 hd

/-- C4 witness: the fuel-independence and no-duplication statements at the
concrete `Node` registry. -/
theorem bufferRequestInterface_terminates_witness :
    bufferFuel 5 nodeReg (gs "Node") ([], []) =
      bufferRequestInterface nodeReg (gs "Node") [] [] ∧
    ((bufferRequestInterface nodeReg (gs "Node") [] [gs "A"]).2).Nodup :=
  ⟨bufferRequestInterface_terminates.1 5 nodeReg (gs "Node") [] [] (by decide),
   bufferRequestInterface_terminates.2.1 nodeReg (gs "Node") [] [gs "A"] (by decide)⟩

lemma sweepStep_grow (reg : Registry) (d : List Str) (e : Str × GDef) :
    (∀ x ∈ d,
      x ∈ (if isObjectOrArrayOfObjects reg e.1 = true ∧ e.1 ∉ d then
        (bufferRequestInterface reg e.1 [] (insertName e.1 d)).2 else d)) ∧
    (d.Nodup →
      ((if isObjectOrArrayOfObjects reg e.1 = true ∧ e.1 ∉ d then
        (bufferRequestInterface reg e.1 [] (insertName e.1 d)).2 else d)).Nodup) := by
  by_cases hg : isObjectOrArrayOfObjects reg e.1 = true ∧ e.1 ∉ d
  · rw [if_pos hg]
    have hrel := bufferFuel_PDle (reg.length + 1) reg e.1 ([], insertName e.1 d)
    constructor
    · intro x hx
      exact hrel.2.1 x (insertName_mem_of_mem hx)
    · intro hd
      exact hrel.2.2 (insertName_nodup hd)
  · rw [if_neg hg]
    exact ⟨fun x hx => hx, id⟩

lemma sweepFold_grow (reg : Registry) :
    ∀ (l : List (Str × GDef)) (d : List Str),
      (∀ x ∈ d, x ∈ l.foldl
        (fun d e =>
          if isObjectOrArrayOfObjects reg e.1 = true ∧ e.1 ∉ d then
            (bufferRequestInterface reg e.1 [] (insertName e.1 d)).2
          else d) d) ∧
      (d.Nodup → (l.foldl
        (fun d e =>
          if isObjectOrArrayOfObjects reg e.1 = true ∧ e.1 ∉ d then
            (bufferRequestInterface reg e.1 [] (insertName e.1 d)).2
          else d) d).Nodup) := by
  intro l
  induction l with
  | nil => exact fun d => ⟨fun x hx => hx, id⟩
  | cons e rest ih =>
    intro d
    simp only [List.foldl_cons]
    have hstep := sweepStep_grow reg d e
    refine ⟨fun x hx => (ih _).1 x (hstep.1 x hx), fun hd => (ih _).2 (hstep.2 hd)⟩

lemma sweepFold_mem (reg : Registry) {n : Str} {df : GDef}
    (hobj : isObjectOrArrayOfObjects reg n = true) :
    ∀ (l : List (Str × GDef)) (d : List Str), (n, df) ∈ l ∨ n ∈ d →
      n ∈ l.foldl
        (fun d e =>
          if isObjectOrArrayOfObjects reg e.1 = true ∧ e.1 ∉ d then
            (bufferRequestInterface reg e.1 [] (insertName e.1 d)).2
          else d) d := by
  intro l
  induction l with
  | nil =>
    intro d h
    rcases h with h | h
    · simp at h
    · exact h
  | cons e rest ih =>
    intro d h
    simp only [List.foldl_cons]
    rcases h with h | h
    · rcases List.mem_cons.mp h with he | ht
      · by_cases hd : n ∈ d
        · refine ih _ (Or.inr ((sweepStep_grow reg d e).1 n hd))
        · have he1 : e.1 = n := by rw [← he]
          refine ih _ (Or.inr ?_)
          rw [if_pos ⟨he1 ▸ hobj, he1 ▸ hd⟩]
          have hrel := bufferFuel_PDle (reg.length + 1) reg e.1 ([], insertName e.1 d)
          exact he1 ▸ hrel.2.1 _ (he1 ▸ mem_insertName n d)
      · exact ih _ (Or.inl ht)
    · exact ih _ (Or.inr ((sweepStep_grow reg d e).1 n h))

lemma count_eq_one_of_nodup_mem {l : List Str} {n : Str}
    (hd : l.Nodup) (hm : n ∈ l) : l.count n = 1 := by
  induction l with
  | nil => simp at hm
  | cons x xs ih =>
    rw [List.nodup_cons] at hd
    rcases List.mem_cons.mp hm with he | ht
    · subst he
      rw [List.count_cons_self, List.count_eq_zero.mpr hd.1]
    · have hxn : x ≠ n := fun hx => hd.1 (hx ▸ ht)
      rw [List.count_cons_of_ne (fun hx => hxn hx.symm)]
      exact ih hd.2 ht

/-- C5: after the completeness sweep, every registered object/interface
type appears exactly once in the final pending (request-projection) set —
even types unreachable from any root or other field — provided the
registered names are plain names (unwrapping is the identity on them) and
the incoming pending set is duplicate-free. -/
theorem bufferMissingRequestInterfaces_complete :
    ∀ (reg : Registry) (deferred : List Str) (n : Str) (df : GDef),
      (∀ e ∈ reg, extractCleanType e.1 = e.1) →
      deferred.Nodup →
      (n, df) ∈ reg →
      (bufferMissingRequestInterfaces reg deferred).count n = 1 := by
  intro reg deferred n df hclean hnd hmem
  have hobj : isObjectOrArrayOfObjects reg n = true := by
    unfold isObjectOrArrayOfObjects
    rw [show extractCleanType n = n from hclean (n, df) hmem]
    unfold isObjectType
    rw [lookupType_isSome_of_mem hmem]
  have hm : n ∈ bufferMissingRequestInterfaces reg deferred :=
    sweepFold_mem reg hobj reg deferred (Or.inl hmem)
  have hd : (bufferMissingRequestInterfaces reg deferred).Nodup :=
    (sweepFold_grow reg reg deferred).2 hnd
  exact count_eq_one_of_nodup_mem hd hm

/-- C5 witness: the completeness statement at the `Node` registry with an
empty incoming pending set. -/
theorem bufferMissingRequestInterfaces_complete_witness :
    (bufferMissingRequestInterfaces nodeReg []).count (gs "Node") = 1 :=
  bufferMissingRequestInterfaces_complete nodeReg [] (gs "Node") nodeDef
    (by decide) (by decide) (by decide)

lemma lookupKey_mapSet {α : Type} :
    ∀ (m : List (Str × α)) (k : Str) (v : α) (q : Str),
      lookupKey (mapSet m k v) q = if k = q then some v else lookupKey m q := by
  intro m
  induction m with
  | nil =>
    intro k v q
    rfl
  | cons e rest ih =>
    intro k v q
    by_cases hek : e.1 = k
    · unfold mapSet
      rw [if_pos hek]
      by_cases hkq : k = q
      · unfold lookupKey
        rw [if_pos hkq, if_pos hkq]
      · unfold lookupKey
        rw [if_neg hkq, if_neg hkq, if_neg (hek ▸ hkq)]
    · unfold mapSet
      rw [if_neg hek]
      by_cases heq : e.1 = q
      · have hkq : ¬ (k = q) := fun hk => hek (heq.trans hk.symm)
        unfold lookupKey
        rw [if_pos heq, if_neg hkq, if_pos heq]
      · unfold lookupKey
        rw [if_neg heq, if_neg heq, ih]

/-- C7: adding Query (or, identically, Mutation) root fields is an
unconditional insert-or-overwrite keyed by field name with no conflict
detection and no error path: after ingesting any sequence of root-field
definitions, the entry stored for a name is exactly the last ingested
definition carrying that name. -/
theorem processRootFields_last_writer_wins :
    ∀ (fs : List GField) (k : Str),
      lookupKey (processRootFields fs) k =
        (fs.filter (fun f => decide (f.name = k))).getLast? := by
  have general : ∀ (fs : List GField) (m : List (Str × GField)) (k : Str),
      lookupKey (fs.foldl addQueryField m) k =
        match (fs.filter (fun f => decide (f.name = k))).getLast? with
        | some f => some f
        | none => lookupKey m k := by
    intro fs
    induction fs using List.reverseRecOn with
    | nil =>
      intro m k
      rfl
    | append_singleton fs f ih =>
      intro m k
      rw [List.foldl_append, List.filter_append]
      show lookupKey (addQueryField (fs.foldl addQueryField m) f) k = _
      unfold addQueryField
      rw [lookupKey_mapSet]
      by_cases hk : f.name = k
      · rw [if_pos hk]
        rw [show List.filter (fun f => decide (f.name = k)) [f] = [f] by
          simp [List.filter, hk]]
        rw [List.getLast?_concat]
      · rw [if_neg hk]
        rw [show List.filter (fun f => decide (f.name = k)) [f] = [] by
          simp [List.filter, hk]]
        rw [List.append_nil]
        exact ih m k
  intro fs k
  rw [show processRootFields fs = fs.foldl addQueryField [] from rfl, general]
  cases hlast : (fs.filter (fun f => decide (f.name = k))).getLast? with
  | some f => rfl
  | none => rfl

lemma typesLoop_fst (reg : Registry) :
    ∀ (l : List (Str × GDef)) (b : Str) (pd : List Str × List Str),
      (l.foldl (fun acc ti =>
        (acc.1 ++ generateTypeInterface ti,
         ti.2.fields.foldl
           (fun pd field =>
             if isObjectOrArrayOfObjects reg field.typ then
               bufferRequestInterface reg field.typ pd.1 pd.2
             else pd)
           acc.2)) (b, pd)).1 =
      l.foldl (fun bb ti => bb ++ generateTypeInterface ti) b := by
  intro l
  induction l with
  | nil => intro b pd; rfl
  | cons ti rest ih =>
    intro b pd
    simp only [List.foldl_cons]
    exact ih _ _

lemma rootLoop_fst (reg : Registry) :
    ∀ (l : List GField) (b : Str) (pd : List Str × List Str),
      (l.foldl (fun acc field =>
        (acc.1 ++ renderDataField field,
         bufferRequestInterface reg field.typ acc.2.1 acc.2.2)) (b, pd)).1 =
      l.foldl (fun bb f => bb ++ renderDataField f) b := by
  intro l
  induction l with
  | nil => intro b pd; rfl
  | cons f rest ih =>
    intro b pd
    simp only [List.foldl_cons]
    exact ih _ _

lemma generateRootInterfaces_fst (reg : Registry) (fields : List GField)
    (rootName : Str) (pd : List Str × List Str) :
    (generateRootInterfaces reg fields rootName pd).1 = rootSection rootName fields := by
  unfold generateRootInterfaces rootSection
  by_cases h : fields.isEmpty
  · rw [if_pos h, if_pos h]
  · rw [if_neg h, if_neg h]
    dsimp only
    rw [rootLoop_fst reg fields _ pd]

lemma rootSection_empty_iff (rootName : Str) (fields : List GField) :
    rootSection rootName fields = [] ↔ fields = [] := by
  unfold rootSection
  by_cases h : fields.isEmpty
  · rw [if_pos h]
    simp [List.isEmpty_iff.mp h]
  · rw [if_neg h]
    constructor
    · intro habs
      have h2 := List.append_eq_nil.mp habs
      exact absurd h2.2 (by decide)
    · intro hfs
      subst hfs
      simp at h

/-- C8: the emitted output is always, in order: the fixed header plus the
`Nullable<T>` alias, the enum section, one interface per registered
object/interface type, a `Query` interface exactly when at least one Query
root field exists, a `Mutation` interface exactly when at least one
Mutation root field exists, and finally the request-projection
interfaces. -/
theorem generateTypescriptFile_sections :
    ∀ (reg : Registry) (enums : List GEnum) (qs ms : List GField),
      (∃ deferred, generateTypescriptFile reg enums qs ms =
        writeFileHeader ++ generateEnums enums ++ typesSection reg ++
        rootSection (gs "Query") qs ++ rootSection (gs "Mutation") ms ++
        generateRequestInterfaces reg deferred) ∧
      (rootSection (gs "Query") qs = [] ↔ qs = []) ∧
      (rootSection (gs "Mutation") ms = [] ↔ ms = []) := by
  intro reg enums qs ms
  refine ⟨?_, rootSection_empty_iff _ qs, rootSection_empty_iff _ ms⟩
  unfold generateTypescriptFile
  dsimp only
  rw [typesLoop_fst reg reg [] ([], []), generateRootInterfaces_fst,
    generateRootInterfaces_fst]
  exact ⟨_, rfl⟩

end GqlTsGen
